import Mathlib

/-!
Verification of the COWNET social-network-analysis engine
(`cownet_multi_agent/tools/sna_tools.py` and
`cownet_multi_agent/tools/simulation_tools.py`).

Shallow embedding conventions:
* Member identifiers are natural numbers (they are opaque in the source).
* Python float arithmetic is modelled by exact rational arithmetic (`ℚ`)
  for the graph-construction and topology layer, and by real arithmetic
  (`ℝ`) for the statistics layer, where `math.exp` and `np.std`
  (a square root) enter.
* The networkx graph is modelled as a list of nodes (in insertion order)
  plus a list of edge records carrying the `count` and `distance`
  attributes.  The centrality routines are called without a weight
  argument in the source, so they are functions of the bare topology
  (`Topo` below), exactly as in networkx.
* `nx.community.greedy_modularity_communities` is an external library
  routine; it enters the embedding as an abstract parameter
  `gm : Topo → List (List ℕ)` and the theorems quantify over it.
-/

/-- Edge-length lower bound from `create_social_network_graph`
(`min_length = 0.2`). -/
def minLength : ℚ := 0.2

/-- Edge-length upper bound from `create_social_network_graph`
(`max_length = 2.0`). -/
def maxLength : ℚ := 2.0

/-- The epsilon guard `1e-9` used in the edge-length denominator. -/
def epsQ : ℚ := 1e-9

/-- One row of the `interaction_counts` DataFrame: columns
`cow_i`, `cow_j`, `count`. -/
structure PairRec where
  cow_i : ℕ
  cow_j : ℕ
  count : ℕ
deriving DecidableEq

/-- One graph edge with its `count` and `distance` attributes. -/
structure EdgeRec where
  u : ℕ
  v : ℕ
  cnt : ℕ
  dist : ℚ
deriving DecidableEq

/-- The networkx graph: node list (insertion order) and edge records. -/
structure Graph where
  nodes : List ℕ
  edges : List EdgeRec
deriving DecidableEq

/-- `interaction_counts['count'].max()` (0 on an empty frame, a case the
source never exercises). -/
def maxCountOf (pairs : List PairRec) : ℕ :=
  (pairs.map PairRec.count).foldr max 0

/-- The edge-length formula of `create_social_network_graph`:
`max_length - (count - 1) / (max_count - 1 + 1e-9) * (max_length - min_length)`. -/
def lengthOf (maxCount count : ℕ) : ℚ :=
  maxLength - ((count : ℚ) - 1) / ((maxCount : ℚ) - 1 + epsQ) * (maxLength - minLength)

/-- `create_social_network_graph`: adds one edge per DataFrame row
(`G.add_edge(cow1, cow2, count=count)`), then assigns each edge the
`distance` attribute `lengthOf`.  Nodes appear in networkx insertion
order.  The aggregated pairs are unique per unordered pair (data-model
invariant of the spec), under which this edge list matches the networkx
edge set one-to-one. -/
def create_social_network_graph (pairs : List PairRec) : Graph :=
  { nodes := (pairs.foldr (fun p acc => p.cow_i :: p.cow_j :: acc) []).dedup
    edges := pairs.map (fun p =>
      ⟨p.cow_i, p.cow_j, p.count, lengthOf (maxCountOf pairs) p.count⟩) }

/-- The attribute-free part of an edge. -/
def edgeTopo (e : EdgeRec) : ℕ × ℕ := (e.u, e.v)

/-- Bare topology of a graph: node list and unordered edge endpoints.
The centrality calls in `compute_centralities` pass no weight argument,
so they read exactly this data. -/
structure Topo where
  nodes : List ℕ
  pairs : List (ℕ × ℕ)
deriving DecidableEq

/-- Forgetting edge attributes. -/
def topo (g : Graph) : Topo :=
  ⟨g.nodes, g.edges.map edgeTopo⟩

/-- Adjacency test on the bare topology. -/
def adjT (t : Topo) (a b : ℕ) : Bool :=
  t.pairs.any (fun p => (p.1 = a ∧ p.2 = b) || (p.1 = b ∧ p.2 = a))

/-- Deduplicated node list (networkx node set, in insertion order). -/
def nodesT (t : Topo) : List ℕ := t.nodes.dedup

/-- Neighbour list of `v` (self-loop-free graphs; the pipeline never
creates self-loops from well-formed pair data). -/
def neighborsT (t : Topo) (v : ℕ) : List ℕ :=
  (nodesT t).filter (fun b => adjT t v b)

/-- `G.degree(v)`: number of neighbours. -/
def degreeT (t : Topo) (v : ℕ) : ℕ := (neighborsT t v).length

/-- Number of walks of length `k` from `a` to `b` (adjacency-matrix
power entry); used to define hop distances and shortest-path counts. -/
def walkCount (t : Topo) : ℕ → ℕ → ℕ → ℕ
  | 0, a, b => if a = b then 1 else 0
  | k + 1, a, b =>
      ((neighborsT t a).map (fun c => walkCount t k c b)).sum

/-- Unweighted hop distance: the least `k < |V|` with a walk of length
`k` from `a` to `b`; `none` when `b` is unreachable from `a`. -/
def hopDistB (t : Topo) (a b : ℕ) : Option ℕ :=
  (List.range (nodesT t).length).find? (fun k => 0 < walkCount t k a b)

/-- `nx.is_connected`: every ordered pair of nodes is joined by a path
(and the graph is non-empty). -/
def isConnectedB (t : Topo) : Bool :=
  !(nodesT t).isEmpty &&
    (nodesT t).all (fun a => (nodesT t).all (fun b => (hopDistB t a b).isSome))

/-- `nx.diameter` on a connected graph: maximal hop distance. -/
def diameterT (t : Topo) : ℕ :=
  ((nodesT t).foldr (fun a acc =>
    ((nodesT t).foldr (fun b acc2 => max ((hopDistB t a b).getD 0) acc2) acc)) 0)

/-- Number of shortest `s`–`t` paths through `v` divided by the number
of shortest `s`–`t` paths (0 when `v` is an endpoint or lies on none). -/
def betweennessPair (t : Topo) (v s u : ℕ) : ℚ :=
  if s = u ∨ s = v ∨ u = v then 0
  else
    match hopDistB t s u, hopDistB t s v, hopDistB t v u with
    | some d, some d1, some d2 =>
        if d1 + d2 = d then
          ((walkCount t d1 s v * walkCount t d2 v u : ℕ) : ℚ) /
            ((walkCount t d s u : ℕ) : ℚ)
        else 0
    | _, _, _ => 0

/-- `nx.betweenness_centrality(G, normalized=True)` for undirected
graphs: pair-dependency sum over ordered pairs, scaled by
`1/((n-1)(n-2))`; zero for `n ≤ 2`. -/
def betweennessT (t : Topo) (v : ℕ) : ℚ :=
  let ns := nodesT t
  let n := ns.length
  if n ≤ 2 then 0
  else ((ns.map (fun s => (ns.map (fun u => betweennessPair t v s u)).sum)).sum) /
    (((n : ℚ) - 1) * ((n : ℚ) - 2))

/-- `nx.closeness_centrality` (default Wasserman–Faust improvement):
`(r-1)/Σd · (r-1)/(n-1)` where `r` counts nodes reachable from `v`. -/
def closenessT (t : Topo) (v : ℕ) : ℚ :=
  let ns := nodesT t
  let ds := ns.filterMap (fun u => hopDistB t v u)
  let r : ℚ := (ds.length : ℚ)
  let tot : ℚ := ((ds.sum : ℕ) : ℚ)
  if 0 < tot ∧ 1 < ns.length then
    (r - 1) / tot * ((r - 1) / ((ns.length : ℚ) - 1))
  else 0

/-- `nx.degree_centrality`: degree over `n - 1` (1 for every node of a
graph with at most one node, as in networkx). -/
def degreeCentralityT (t : Topo) (v : ℕ) : ℚ :=
  if (nodesT t).length ≤ 1 then 1
  else (degreeT t v : ℚ) / ((nodesT t).length - 1)

/-- Centralities on a bare topology, as association lists keyed by node. -/
def centralitiesOfTopo (t : Topo) :
    List (ℕ × ℚ) × List (ℕ × ℚ) × List (ℕ × ℚ) :=
  ((nodesT t).map (fun v => (v, betweennessT t v)),
   (nodesT t).map (fun v => (v, degreeCentralityT t v)),
   (nodesT t).map (fun v => (v, closenessT t v)))

/-- `compute_centralities`: betweenness (normalized), degree and
closeness centrality; the networkx calls pass no weight argument, so
they are functions of the bare topology. -/
def compute_centralities (g : Graph) :
    List (ℕ × ℚ) × List (ℕ × ℚ) × List (ℕ × ℚ) :=
  centralitiesOfTopo (topo g)

/-- Sorted copy of a rational list (numpy sorts before taking
percentiles). -/
def sortQ (l : List ℚ) : List ℚ := l.insertionSort (· ≤ ·)

/-- `np.percentile(a, p)` with the default linear interpolation:
position `p/100 · (n-1)`, linearly interpolated between the two
adjacent order statistics. -/
def percentileQ (l : List ℚ) (p : ℚ) : ℚ :=
  let s := sortQ l
  let n := s.length
  if n = 0 then 0
  else
    let pos : ℚ := p / 100 * ((n : ℚ) - 1)
    let i : ℕ := (⌊pos⌋).toNat
    let frac : ℚ := pos - (i : ℚ)
    let lo := s.getD i 0
    let hi := s.getD (i + 1) 0
    lo + frac * (hi - lo)

/-- `np.median` = 50th percentile. -/
def medianQ (l : List ℚ) : ℚ := percentileQ l 50

/-- `np.mean` over rationals. -/
def meanQ (l : List ℚ) : ℚ := l.sum / (l.length : ℚ)

/-- Population variance (`np.std` squares to this; `ddof = 0`). -/
def varianceQ (l : List ℚ) : ℚ :=
  meanQ (l.map (fun x => (x - meanQ l) ^ 2))

/-- `np.std`: square root of the population variance. -/
noncomputable def stdR (l : List ℚ) : ℝ := Real.sqrt ((varianceQ l : ℝ))

/-- The effective denominator of `robust_z_score` before the final
division by `1.35`: the IQR, falling back to `std * 1.35`, falling back
to `1.0`. -/
noncomputable def effDenom (l : List ℚ) : ℝ :=
  let iqr := percentileQ l 75 - percentileQ l 25
  if iqr = 0 then
    let s := stdR l * 1.35
    if s = 0 then 1 else s
  else (iqr : ℝ)

/-- `robust_z_score`: `(x - median) / (iqr / 1.35)` per member, with the
fallback chain of `effDenom`; empty input maps to empty output. -/
noncomputable def robust_z_score (m : List (ℕ × ℚ)) : List (ℕ × ℝ) :=
  if m = [] then []
  else
    let vals := m.map Prod.snd
    let med : ℚ := medianQ vals
    m.map (fun p => (p.1, ((p.2 : ℝ) - (med : ℝ)) / (effDenom vals / 1.35)))

/-- `sigmoid`: `1 / (1 + exp(-clip(x, -10, 10)))`. -/
noncomputable def sigmoid (x : ℝ) : ℝ :=
  1 / (1 + Real.exp (-(max (-10) (min 10 x))))

/-- Per-member metrics record produced by `compute_per_cow_sna_metrics`.
The dictionary literal in the source spreads the three centralities and
then rebinds the `degree` key to `G.degree(cow_id)`, so the normalized
degree centrality is overwritten and the record carries the raw degree. -/
structure PerCow where
  betweenness : ℚ
  closeness : ℚ
  community_disruption : ℚ
  degree : ℚ
deriving DecidableEq

/-- `compute_community_disruption`, parametric in the external
`nx.community.greedy_modularity_communities` routine `gm`: 0 when the
member is absent or the graph has fewer than 3 nodes or the member is in
no detected community or has no neighbours; otherwise the fraction of
neighbours lying in a different community. -/
def compute_community_disruption (gm : Topo → List (List ℕ)) (g : Graph)
    (v : ℕ) : ℚ :=
  let t := topo g
  if v ∉ nodesT t ∨ (nodesT t).length < 3 then 0
  else
    let communities := gm t
    match communities.findIdx? (fun comm => v ∈ comm) with
    | none => 0
    | some ci =>
        let nbrs := neighborsT t v
        if nbrs = [] then 0
        else
          ((nbrs.filter (fun nb =>
              communities.enum.any (fun ic => ic.1 ≠ ci ∧ nb ∈ ic.2))).length : ℚ) /
            (nbrs.length : ℚ)

/-- The per-member record of `compute_per_cow_sna_metrics` for one node:
betweenness and closeness from `compute_centralities`, disruption from
`compute_community_disruption`, and the raw degree (which overwrites the
spread-in degree centrality). -/
def perCowFor (gm : Topo → List (List ℕ)) (g : Graph) (v : ℕ) : PerCow :=
  { betweenness := betweennessT (topo g) v
    closeness := closenessT (topo g) v
    community_disruption := compute_community_disruption gm g v
    degree := (degreeT (topo g) v : ℚ) }

/-- `compute_per_cow_sna_metrics`: one record per node of the graph. -/
def compute_per_cow_sna_metrics (gm : Topo → List (List ℕ)) (g : Graph) :
    List (ℕ × PerCow) :=
  (nodesT (topo g)).map (fun v => (v, perCowFor gm g v))

/-- A Python numeric value that may be the floating-point infinity
literal `float('inf')`. -/
inductive PyNum where
  | num (q : ℚ)
  | inf
deriving DecidableEq

/-- `max(...)` over a possibly-empty value list, 0 when empty
(mirroring `max(...) if all_betweenness else 0`). -/
def maxQ (l : List ℚ) : ℚ :=
  match l with
  | [] => 0
  | h :: tl => tl.foldl max h

/-- Ordered node pairs `(a, b)` with `a < b` that are adjacent; one
entry per undirected edge of a self-loop-free graph. -/
def edgePairsT (t : Topo) : List (ℕ × ℕ) :=
  ((nodesT t).foldr (fun a acc => ((nodesT t).map (fun b => (a, b))) ++ acc) []).filter
    (fun ab => ab.1 < ab.2 ∧ adjT t ab.1 ab.2)

/-- `G.number_of_edges()`: distinct unordered adjacent pairs
(self-loop-free graphs). -/
def numEdgesT (t : Topo) : ℕ :=
  (edgePairsT t).length

/-- `nx.density`: `2E / (n(n-1))`, 0 for `n ≤ 1`. -/
def densityT (t : Topo) : ℚ :=
  let n := (nodesT t).length
  if n ≤ 1 then 0
  else 2 * (numEdgesT t : ℚ) / ((n : ℚ) * ((n : ℚ) - 1))

/-- The herd-level metric dictionary of `compute_herd_level_metrics`. -/
structure HerdMetrics where
  num_cows : ℕ
  num_edges : ℕ
  density : ℚ
  avg_degree : ℚ
  diameter : PyNum
  avg_betweenness : ℚ
  max_betweenness : ℚ
  avg_degree_centrality : ℚ
  max_degree : ℚ
deriving DecidableEq

/-- `compute_herd_level_metrics`: empty dictionary (`none`) on the empty
graph; otherwise the aggregate statistics.  `diameter` is
`nx.diameter(G) if nx.is_connected(G) else float('inf')`, and
`avg_degree_centrality` is the mean of the `degree` entries of the
per-member metrics (which hold raw degrees). -/
def compute_herd_level_metrics (g : Graph) (m : List (ℕ × PerCow)) :
    Option HerdMetrics :=
  let t := topo g
  let ns := nodesT t
  if ns = [] then none
  else
    let avgDeg : ℚ := (ns.map (fun v => (degreeT t v : ℚ))).sum / (ns.length : ℚ)
    some
      { num_cows := ns.length
        num_edges := numEdgesT t
        density := densityT t
        avg_degree := avgDeg
        diameter := if isConnectedB t then PyNum.num ((diameterT t : ℚ)) else PyNum.inf
        avg_betweenness := meanQ (m.map (fun p => p.2.betweenness))
        max_betweenness := maxQ (m.map (fun p => p.2.betweenness))
        avg_degree_centrality := meanQ (m.map (fun p => p.2.degree))
        max_degree := max avgDeg ((ns.map (fun v => (degreeT t v : ℚ))).foldr max 0) }

/-- The two composite scores of `compute_risk_scores` for one member. -/
structure RiskPair where
  conflict_risk : ℝ
  isolation_risk : ℝ

/-- Metrics-record lookup with the empty record as default (the source
indexes `per_cow_metrics[cow_id]`, which is total on pipeline bundles,
whose key set is the node set). -/
def lookupPC (m : List (ℕ × PerCow)) (v : ℕ) : PerCow :=
  (m.lookup v).getD ⟨0, 0, 0, 0⟩

/-- `norm_betweenness.get(cow_id, 0)`: the robust z-score of the
betweenness metric, defaulting to 0. -/
noncomputable def zBtw (m : List (ℕ × PerCow)) (v : ℕ) : ℝ :=
  ((robust_z_score (m.map (fun p => (p.1, p.2.betweenness)))).lookup v).getD 0

/-- Mean of the z-normalized degree distribution
(`np.mean(list(norm_degree.values()))`). -/
noncomputable def zDegreeMean (m : List (ℕ × PerCow)) : ℝ :=
  let nd := robust_z_score (m.map (fun p => (p.1, p.2.degree)))
  (nd.map Prod.snd).sum / ((nd.length : ℝ))

/-- The unclamped conflict score:
`0.50*sigmoid(btw) + 0.15*sigmoid(comm_disrupt) + 0.35*(1 - deg_centrality)`,
where `deg_centrality` is read from the `degree` metrics entry. -/
noncomputable def conflictScore (m : List (ℕ × PerCow)) (v : ℕ) : ℝ :=
  0.5 * sigmoid (zBtw m v) + 0.15 * sigmoid (((lookupPC m v).community_disruption : ℝ)) +
    0.35 * (1 - ((lookupPC m v).degree : ℝ))

/-- The unclamped isolation score:
`0.50*(1 - deg_centrality) + 0.30*(1 - closeness) + 0.20*|degree - mean(norm_degree)|`. -/
noncomputable def isolationScore (m : List (ℕ × PerCow)) (v : ℕ) : ℝ :=
  0.5 * (1 - ((lookupPC m v).degree : ℝ)) + 0.3 * (1 - ((lookupPC m v).closeness : ℝ)) +
    0.2 * |((lookupPC m v).degree : ℝ) - zDegreeMean m|

/-- Both scores for one member, clamped above at 1.0 only. -/
noncomputable def riskFor (m : List (ℕ × PerCow)) (v : ℕ) : RiskPair :=
  ⟨min 1 (conflictScore m v), min 1 (isolationScore m v)⟩

/-- `compute_risk_scores`: one clamped score pair per node of the graph. -/
noncomputable def compute_risk_scores (g : Graph) (m : List (ℕ × PerCow)) :
    List (ℕ × RiskPair) :=
  (nodesT (topo g)).map (fun v => (v, riskFor m v))

/-- Names of the error classes of the specified error taxonomy.  The
source of `remove_cow_from_network` contains no raise statement, so its
translation never produces a raised outcome; the constructor is kept so
that raising and returning are distinguishable outcomes of a call. -/
inductive ExcName where
  | MemberNotFoundError
  | MissingBaselineError
deriving DecidableEq

/-- Outcome of a call to `remove_cow_from_network`:
* `errNoGraph` — the early return when no baseline graph is supplied;
* `errNotFound cow n` — the early return whose content string reports
  that `cow` is not present and that the graph has `n` total nodes;
* `ok d g` — the success return: the content string reports the removed
  degree `d` (which is also the reported `edges_removed`), and `g` is
  the modified graph;
* `raised e` — a Python exception `e` escaping the call (never produced
  by this function). -/
inductive RemoveResult where
  | errNoGraph
  | errNotFound (cow : ℕ) (totalNodes : ℕ)
  | ok (removedDegree : ℕ) (modified : Graph)
  | raised (e : ExcName)
deriving DecidableEq

/-- `G.remove_node(v)` on a copy: drops the node and all incident edges. -/
def removeNode (g : Graph) (v : ℕ) : Graph :=
  ⟨g.nodes.filter (fun x => x ≠ v),
   g.edges.filter (fun e => e.u ≠ v ∧ e.v ≠ v)⟩

/-- `remove_cow_from_network(cow_id, sna_graph)`: the input adjacency
dict round-trips through `nx.from_dict_of_dicts`, modelled by passing
the graph value itself.  The function reads the baseline, never writes
it; the second component of the result is the baseline as it stands
after the call. -/
def remove_cow_from_network (cow : ℕ) (sna : Option Graph) :
    RemoveResult × Option Graph :=
  match sna with
  | none => (RemoveResult.errNoGraph, none)
  | some g =>
      let ns := nodesT (topo g)
      if cow ∈ ns then
        (RemoveResult.ok (degreeT (topo g) cow) (removeNode g cow), some g)
      else
        (RemoveResult.errNotFound cow ns.length, some g)

/-- A trivial stand-in for the abstract community-detection parameter,
used to instantiate theorems at concrete graphs. -/
def gmNone : Topo → List (List ℕ) := fun _ => []

/-- Concrete input: the three-pair scenario of the spec
(`[(A,B,3), (B,C,3), (A,C,1)]` with members 0, 1, 2). -/
def pairsDemo : List PairRec := [⟨0, 1, 3⟩, ⟨1, 2, 3⟩, ⟨0, 2, 1⟩]

/-- Concrete input: a single aggregated pair with count 1. -/
def pairsSingle : List PairRec := [⟨0, 1, 1⟩]

/-- Concrete path graph 0 – 1 – 2 built by the graph builder. -/
def gPath : Graph := create_social_network_graph [⟨0, 1, 1⟩, ⟨1, 2, 1⟩]

/-- Concrete triangle graph on members 0, 1, 2. -/
def gTriangle : Graph := create_social_network_graph pairsDemo

/-- Concrete disconnected graph: two separate edges 0–1 and 2–3. -/
def gDisc : Graph := create_social_network_graph [⟨0, 1, 1⟩, ⟨2, 3, 1⟩]

/-- Concrete hand-picked metrics bundle for members 0, 1, 2: constant
betweenness and disruption 0, closeness 1/2, degrees 1, 2, 1. -/
def mPath : List (ℕ × PerCow) :=
  [(0, ⟨0, 1/2, 0, 1⟩), (1, ⟨0, 1/2, 0, 2⟩), (2, ⟨0, 1/2, 0, 1⟩)]

/-- Concrete graph with edge distances 1 and 2 on the path 0 – 1 – 2. -/
def gW1 : Graph := ⟨[0, 1, 2], [⟨0, 1, 1, 1⟩, ⟨1, 2, 1, 2⟩]⟩

/-- The same topology as `gW1` with different counts and distances. -/
def gW2 : Graph := ⟨[0, 1, 2], [⟨0, 1, 5, 7⟩, ⟨1, 2, 9, 1/3⟩]⟩

/-- Default herd-metrics record used for total projections. -/
def herdDefault : HerdMetrics :=
  ⟨0, 0, 0, 0, PyNum.num 0, 0, 0, 0, 0⟩

lemma sigmoid_zero : sigmoid 0 = 1 / 2 := by
  have h1 : max (-10 : ℝ) (min 10 0) = 0 := by norm_num
  simp only [sigmoid, h1, neg_zero, Real.exp_zero]
  norm_num

lemma sum_const_list (l : List ℚ) (c : ℚ) (hc : ∀ x ∈ l, x = c) :
    l.sum = (l.length : ℚ) * c := by
  induction l with
  | nil => simp
  | cons a tl ih =>
      have ha : a = c := hc a (by simp)
      have htl : ∀ x ∈ tl, x = c := fun x hx => hc x (by simp [hx])
      simp [ha, ih htl]
      ring

lemma meanQ_const (l : List ℚ) (c : ℚ) (hl : l ≠ []) (hc : ∀ x ∈ l, x = c) :
    meanQ l = c := by
  have hlen : (l.length : ℚ) ≠ 0 := by
    exact_mod_cast Nat.pos_iff_ne_zero.mp (List.length_pos.mpr hl)
  simp only [meanQ, sum_const_list l c hc]
  field_simp

lemma varianceQ_const (l : List ℚ) (c : ℚ) (hl : l ≠ []) (hc : ∀ x ∈ l, x = c) :
    varianceQ l = 0 := by
  have hm := meanQ_const l c hl hc
  unfold varianceQ
  rw [hm]
  refine meanQ_const _ 0 (by simpa using hl) ?_
  intro y hy
  rcases List.mem_map.mp hy with ⟨x, hx, rfl⟩
  rw [hc x hx]
  ring

lemma percentileQ_const (l : List ℚ) (c p : ℚ) (hl : l ≠ [])
    (hc : ∀ x ∈ l, x = c) (hp0 : 0 ≤ p) (hp1 : p < 100) :
    percentileQ l p = c := by
  have hperm : List.Perm (l.insertionSort (· ≤ ·)) l := List.perm_insertionSort _ l
  have hsc : ∀ x ∈ sortQ l, x = c := fun x hx => hc x (hperm.mem_iff.mp hx)
  have hpos : 0 < (sortQ l).length := by
    unfold sortQ
    rw [hperm.length_eq]
    exact List.length_pos.mpr hl
  simp only [percentileQ]
  rw [if_neg (Nat.pos_iff_ne_zero.mp hpos)]
  set s := sortQ l with hs
  set n := s.length with hn
  set pos : ℚ := p / 100 * ((n : ℚ) - 1) with hposdef
  have hn1 : (1 : ℚ) ≤ (n : ℚ) := by exact_mod_cast hpos
  have hp100 : p / 100 ≤ 1 := by
    rw [div_le_one (by norm_num : (0:ℚ) < 100)]
    linarith
  have hpos0 : 0 ≤ pos :=
    mul_nonneg (div_nonneg hp0 (by norm_num)) (by linarith)
  have hposlt : pos < (n : ℚ) := by
    have : pos ≤ (n : ℚ) - 1 := by
      calc pos ≤ 1 * ((n : ℚ) - 1) :=
            mul_le_mul_of_nonneg_right hp100 (by linarith)
        _ = (n : ℚ) - 1 := one_mul _
    linarith
  have hfl0 : 0 ≤ ⌊pos⌋ := Int.floor_nonneg.mpr hpos0
  have hilt : (⌊pos⌋).toNat < n := by
    rw [Int.toNat_lt hfl0]
    exact Int.floor_lt.mpr (by exact_mod_cast hposlt)
  have hlo : s.getD (⌊pos⌋).toNat 0 = c := by
    rw [List.getD_eq_getElem s 0 hilt]
    exact hsc _ (List.getElem_mem hilt)
  by_cases h1 : n = 1
  · have hpz : pos = 0 := by
      rw [hposdef, h1]
      norm_num
    have hiz : (⌊pos⌋).toNat = 0 := by rw [hpz]; simp
    rw [hlo, hiz, hpz]
    norm_num
  · have hn2 : 2 ≤ n := by omega
    have hposlt1 : pos < (n : ℚ) - 1 := by
      have h0 : (0 : ℚ) < (n : ℚ) - 1 := by
        have : (2 : ℚ) ≤ (n : ℚ) := by exact_mod_cast hn2
        linarith
      calc pos < 1 * ((n : ℚ) - 1) := by
            rw [hposdef]
            exact mul_lt_mul_of_pos_right
              ((div_lt_one (by norm_num : (0:ℚ) < 100)).mpr hp1) h0
        _ = (n : ℚ) - 1 := one_mul _
    have hilt1 : (⌊pos⌋).toNat + 1 < n := by
      have : ⌊pos⌋ < (n : ℤ) - 1 := by
        rw [Int.floor_lt]
        push_cast
        exact_mod_cast hposlt1
      omega
    have hhi : s.getD ((⌊pos⌋).toNat + 1) 0 = c := by
      rw [List.getD_eq_getElem s 0 hilt1]
      exact hsc _ (List.getElem_mem hilt1)
    rw [hlo, hhi]
    ring

lemma effDenom_const (l : List ℚ) (c : ℚ) (hl : l ≠ [])
    (hc : ∀ x ∈ l, x = c) : effDenom l = 1 := by
  have h75 := percentileQ_const l c 75 hl hc (by norm_num) (by norm_num)
  have h25 := percentileQ_const l c 25 hl hc (by norm_num) (by norm_num)
  have hv := varianceQ_const l c hl hc
  simp only [effDenom, stdR, h75, h25, sub_self, if_pos, hv]
  norm_num

lemma robust_z_score_const (m : List (ℕ × ℚ)) (c : ℚ) (hm : m ≠ [])
    (hc : ∀ p ∈ m, p.2 = c) :
    ∀ p ∈ robust_z_score m, p.2 = 0 := by
  intro p hp
  have hvals : ∀ x ∈ m.map Prod.snd, x = c := by
    intro x hx
    rcases List.mem_map.mp hx with ⟨q, hq, rfl⟩
    exact hc q hq
  have hvne : m.map Prod.snd ≠ [] := by simpa using hm
  have hmed : medianQ (m.map Prod.snd) = c :=
    percentileQ_const _ c 50 hvne hvals (by norm_num) (by norm_num)
  simp only [robust_z_score, if_neg hm, hmed] at hp
  rcases List.mem_map.mp hp with ⟨q, hq, rfl⟩
  simp [hc q hq]

lemma lookup_map_self {α : Type} (f : ℕ → α) :
    ∀ (l : List ℕ), l.Nodup → ∀ v ∈ l,
      (l.map (fun u => (u, f u))).lookup v = some (f v) := by
  intro l
  induction l with
  | nil => intro _ v hv; cases hv
  | cons a tl ih =>
      intro hnd v hv
      rcases List.nodup_cons.mp hnd with ⟨hna, hndtl⟩
      rcases List.mem_cons.mp hv with rfl | hvtl
      · simp [List.lookup]
      · have hne : v ≠ a := fun h => hna (h ▸ hvtl)
        have hbeq : (v == a) = false := beq_eq_false_iff_ne.mpr hne
        simp only [List.map_cons, List.lookup, hbeq]
        exact ih hndtl v hvtl

lemma lookupPC_pipeline (gm : Topo → List (List ℕ)) (g : Graph) (v : ℕ)
    (hv : v ∈ nodesT (topo g)) :
    lookupPC (compute_per_cow_sna_metrics gm g) v = perCowFor gm g v := by
  unfold lookupPC compute_per_cow_sna_metrics
  rw [lookup_map_self (perCowFor gm g) (nodesT (topo g)) (List.nodup_dedup _) v hv]
  rfl

lemma epsQ_pos : 0 < epsQ := by norm_num [epsQ]

lemma span_pos : (0 : ℚ) < maxLength - minLength := by
  norm_num [maxLength, minLength]

lemma count_le_maxCountOf (pairs : List PairRec) :
    ∀ p ∈ pairs, p.count ≤ maxCountOf pairs := by
  unfold maxCountOf
  induction pairs with
  | nil => intro p hp; cases hp
  | cons a tl ih =>
      intro p hp
      rcases List.mem_cons.mp hp with rfl | hptl
      · exact le_max_left _ _
      · exact le_trans (ih p hptl) (le_max_right _ _)

lemma mem_pairNodes (pairs : List PairRec) (v : ℕ) :
    v ∈ pairs.foldr (fun p acc => p.cow_i :: p.cow_j :: acc) [] ↔
      ∃ p ∈ pairs, v = p.cow_i ∨ v = p.cow_j := by
  induction pairs with
  | nil => simp
  | cons a tl ih =>
      simp only [List.foldr_cons, List.mem_cons, ih]
      constructor
      · rintro (rfl | rfl | ⟨p, hp, hvp⟩)
        · exact ⟨a, Or.inl rfl, Or.inl rfl⟩
        · exact ⟨a, Or.inl rfl, Or.inr rfl⟩
        · exact ⟨p, Or.inr hp, hvp⟩
      · rintro ⟨p, rfl | hp, hvp⟩
        · rcases hvp with rfl | rfl
          · exact Or.inl rfl
          · exact Or.inr (Or.inl rfl)
        · exact Or.inr (Or.inr ⟨p, hp, hvp⟩)

lemma lengthOf_bounds (M c : ℕ) (h1 : 1 ≤ c) (h2 : c ≤ M) :
    minLength ≤ lengthOf M c ∧ lengthOf M c ≤ maxLength := by
  have hc1 : (1 : ℚ) ≤ (c : ℚ) := by exact_mod_cast h1
  have hcM : (c : ℚ) ≤ (M : ℚ) := by exact_mod_cast h2
  have heps : (0 : ℚ) < epsQ := epsQ_pos
  have hden : (0 : ℚ) < (M : ℚ) - 1 + epsQ := by linarith
  have hx0 : 0 ≤ ((c : ℚ) - 1) / ((M : ℚ) - 1 + epsQ) :=
    div_nonneg (by linarith) (le_of_lt hden)
  have hx1 : ((c : ℚ) - 1) / ((M : ℚ) - 1 + epsQ) ≤ 1 :=
    (div_le_one hden).mpr (by linarith)
  have hspan : (0 : ℚ) < maxLength - minLength := span_pos
  unfold lengthOf
  constructor
  · have := mul_le_mul_of_nonneg_right hx1 (le_of_lt hspan)
    rw [one_mul] at this
    linarith
  · have := mul_nonneg hx0 (le_of_lt hspan)
    linarith

lemma lengthOf_at_max (M : ℕ) (hM : 1 ≤ M) :
    lengthOf M M = minLength + (maxLength - minLength) * epsQ / ((M : ℚ) - 1 + epsQ) ∧
      minLength < lengthOf M M := by
  have hM1 : (1 : ℚ) ≤ (M : ℚ) := by exact_mod_cast hM
  have heps : (0 : ℚ) < epsQ := epsQ_pos
  have hden : (0 : ℚ) < (M : ℚ) - 1 + epsQ := by linarith
  have hspan : (0 : ℚ) < maxLength - minLength := span_pos
  have heq : lengthOf M M =
      minLength + (maxLength - minLength) * epsQ / ((M : ℚ) - 1 + epsQ) := by
    unfold lengthOf
    field_simp
    ring
  refine ⟨heq, ?_⟩
  rw [heq]
  have : (0 : ℚ) < (maxLength - minLength) * epsQ / ((M : ℚ) - 1 + epsQ) :=
    div_pos (mul_pos hspan heps) hden
  linarith

/-- C5: the single aggregated pair with count 1 (so max_count is 1) is
assigned distance exactly max_length, and the epsilon-guarded
denominator `max_count - 1 + 1e-9` is nonzero, so the division is by a
nonzero quantity. -/
theorem C5_single_pair_max_length :
    (create_social_network_graph pairsSingle).edges = [⟨0, 1, 1, maxLength⟩] ∧
      ((maxCountOf pairsSingle : ℚ) - 1 + epsQ) ≠ 0 := by
  have hmc : maxCountOf pairsSingle = 1 := by decide
  constructor
  · simp only [create_social_network_graph, pairsSingle, List.map_cons, List.map_nil, hmc]
    norm_num [lengthOf, epsQ]
  · rw [hmc]
    norm_num [epsQ]

/-- C2 counterexample: in the concrete scenario `pairsDemo` the first
pair has the maximal count (3), yet the graph builder assigns its edge a
distance different from min_length — the epsilon in the denominator
shifts it to `0.2 + 9/5 · 1e-9 / (2 + 1e-9)`. -/
theorem C2_counterexample :
    ((create_social_network_graph pairsDemo).edges.getD 0 ⟨0, 0, 0, 0⟩).cnt =
        maxCountOf pairsDemo ∧
      ((create_social_network_graph pairsDemo).edges.getD 0 ⟨0, 0, 0, 0⟩).dist ≠
        minLength := by
  constructor
  · decide
  · have hmc : maxCountOf [(⟨0, 1, 3⟩ : PairRec), ⟨1, 2, 3⟩, ⟨0, 2, 1⟩] = 3 := by decide
    simp only [create_social_network_graph, pairsDemo, List.map_cons, List.map_nil,
      List.getD_cons_zero, hmc]
    norm_num [lengthOf, minLength, maxLength, epsQ]

/-- C2 (amended): every pair whose count equals the maximum observed
count receives the distance
`min_length + (max_length - min_length) · ε / (max_count - 1 + ε)` —
one common value for all ties — which is strictly greater than
min_length (it equals max_length when max_count is 1), not exactly
min_length. -/
theorem C2_tie_distance (pairs : List PairRec) (e : EdgeRec)
    (he : e ∈ (create_social_network_graph pairs).edges)
    (hc : ∀ p ∈ pairs, 1 ≤ p.count)
    (hm : e.cnt = maxCountOf pairs) :
    e.dist = minLength +
        (maxLength - minLength) * epsQ / ((maxCountOf pairs : ℚ) - 1 + epsQ) ∧
      minLength < e.dist := by
  simp only [create_social_network_graph, List.mem_map] at he
  obtain ⟨p, hp, rfl⟩ := he
  simp only at hm ⊢
  rw [hm]
  exact lengthOf_at_max (maxCountOf pairs) (le_trans (hc p hp) (hm ▸ count_le_maxCountOf pairs p hp))

/-- C2 witness: the amended statement instantiated at the concrete
scenario `pairsDemo` and its first edge. -/
theorem C2_witness :
    (⟨0, 1, 3, lengthOf (maxCountOf pairsDemo) 3⟩ : EdgeRec).dist =
        minLength +
          (maxLength - minLength) * epsQ / ((maxCountOf pairsDemo : ℚ) - 1 + epsQ) ∧
      minLength < (⟨0, 1, 3, lengthOf (maxCountOf pairsDemo) 3⟩ : EdgeRec).dist :=
  C2_tie_distance pairsDemo _ (by simp [create_social_network_graph, pairsDemo])
    (by decide) (by decide)

/-- C6: for a non-empty set of aggregated pairs with all counts at least
1, the node set of the built graph is exactly the set of members
appearing in at least one pair, and every edge distance lies in the
closed interval from min_length to max_length. -/
theorem C6_node_set_and_distance_bounds (pairs : List PairRec)
    (_hne : pairs ≠ []) (hc : ∀ p ∈ pairs, 1 ≤ p.count) :
    (∀ v, v ∈ (create_social_network_graph pairs).nodes ↔
        ∃ p ∈ pairs, v = p.cow_i ∨ v = p.cow_j) ∧
      (∀ e ∈ (create_social_network_graph pairs).edges,
        minLength ≤ e.dist ∧ e.dist ≤ maxLength) := by
  constructor
  · intro v
    simp only [create_social_network_graph, List.mem_dedup]
    exact mem_pairNodes pairs v
  · intro e he
    simp only [create_social_network_graph, List.mem_map] at he
    obtain ⟨p, hp, rfl⟩ := he
    exact lengthOf_bounds (maxCountOf pairs) p.count (hc p hp)
      (count_le_maxCountOf pairs p hp)

/-- C6 witness: the node-set characterisation and the distance bounds
instantiated at the single-pair input and its member 0 and only edge. -/
theorem C6_witness :
    (0 ∈ (create_social_network_graph pairsSingle).nodes ↔
        ∃ p ∈ pairsSingle, 0 = p.cow_i ∨ 0 = p.cow_j) ∧
      (minLength ≤ (⟨0, 1, 1, lengthOf (maxCountOf pairsSingle) 1⟩ : EdgeRec).dist ∧
        (⟨0, 1, 1, lengthOf (maxCountOf pairsSingle) 1⟩ : EdgeRec).dist ≤ maxLength) :=
  ⟨(C6_node_set_and_distance_bounds pairsSingle (by decide) (by decide)).1 0,
   (C6_node_set_and_distance_bounds pairsSingle (by decide) (by decide)).2 _
     (by simp [create_social_network_graph, pairsSingle])⟩

/-- C3 counterexample: on a concrete disconnected graph the code stores
the group-level diameter as the floating-point infinity
(`float('inf')`, embedded as `PyNum.inf`), not as a tagged
Finite/Unbounded value. -/
theorem C3_counterexample :
    (compute_herd_level_metrics gDisc
        (compute_per_cow_sna_metrics gmNone gDisc)).map HerdMetrics.diameter =
      some PyNum.inf := by
  have h1 : nodesT (topo gDisc) = [0, 1, 2, 3] := by decide
  have h2 : isConnectedB (topo gDisc) = false := by decide
  simp [compute_herd_level_metrics, h1, h2]

/-- C3 (amended): the group-level diameter is the numeric
`nx.diameter` value when the graph is connected, and the floating-point
infinity literal when it is disconnected (the source computes
`nx.diameter(G) if nx.is_connected(G) else float('inf')`); there is no
tagged Finite/Unbounded representation. -/
theorem C3_diameter_value (g : Graph) (m : List (ℕ × PerCow)) :
    (compute_herd_level_metrics g m).map HerdMetrics.diameter =
      if nodesT (topo g) = [] then none
      else if isConnectedB (topo g) then some (PyNum.num ((diameterT (topo g) : ℚ)))
      else some PyNum.inf := by
  by_cases h : nodesT (topo g) = []
  · simp [compute_herd_level_metrics, h]
  · by_cases hc : isConnectedB (topo g)
    · simp [compute_herd_level_metrics, h, hc]
    · simp [compute_herd_level_metrics, h, hc]

/-- C9: betweenness, degree and closeness centrality are computed from
the unweighted hop-count topology only — two graphs with the same nodes
and the same edge endpoints but arbitrarily different count and distance
attributes get identical centrality results. -/
theorem C9_centrality_attribute_independent (g1 g2 : Graph)
    (hn : g1.nodes = g2.nodes)
    (he : g1.edges.map edgeTopo = g2.edges.map edgeTopo) :
    compute_centralities g1 = compute_centralities g2 := by
  unfold compute_centralities
  have ht : topo g1 = topo g2 := by
    unfold topo
    rw [hn, he]
  rw [ht]

/-- C9 witness: two concrete path graphs differing in every count and
distance attribute have identical centralities. -/
theorem C9_witness :
    gW1.nodes = gW2.nodes ∧
      gW1.edges.map edgeTopo = gW2.edges.map edgeTopo ∧
      compute_centralities gW1 = compute_centralities gW2 :=
  ⟨rfl, rfl, C9_centrality_attribute_independent gW1 gW2 rfl rfl⟩

/-- C10: the herd-level `avg_degree_centrality` always equals
`avg_degree` — both average the raw member degrees, because the
per-member `degree` entry holds the raw degree — and on the concrete
triangle graph the value is 2, exceeding 1. -/
theorem C10_avg_degree_centrality_eq_avg_degree :
    (∀ (g : Graph) (gm : Topo → List (List ℕ)),
        ((compute_herd_level_metrics g
            (compute_per_cow_sna_metrics gm g)).getD herdDefault).avg_degree_centrality =
          ((compute_herd_level_metrics g
            (compute_per_cow_sna_metrics gm g)).getD herdDefault).avg_degree) ∧
      1 < ((compute_herd_level_metrics gTriangle
            (compute_per_cow_sna_metrics gmNone gTriangle)).getD
              herdDefault).avg_degree_centrality := by
  have hA : ∀ (g : Graph) (gm : Topo → List (List ℕ)),
      ((compute_herd_level_metrics g
          (compute_per_cow_sna_metrics gm g)).getD herdDefault).avg_degree_centrality =
        ((compute_herd_level_metrics g
          (compute_per_cow_sna_metrics gm g)).getD herdDefault).avg_degree := by
    intro g gm
    by_cases h : nodesT (topo g) = []
    · simp [compute_herd_level_metrics, h, herdDefault]
    · simp only [compute_herd_level_metrics, if_neg h, Option.getD_some]
      simp [compute_per_cow_sna_metrics, perCowFor, meanQ, List.map_map,
        Function.comp_def]
  refine ⟨hA, ?_⟩
  rw [hA gTriangle gmNone]
  have hns : nodesT (topo gTriangle) = [1, 0, 2] := by decide
  have hd1 : degreeT (topo gTriangle) 1 = 2 := by decide
  have hd0 : degreeT (topo gTriangle) 0 = 2 := by decide
  have hd2 : degreeT (topo gTriangle) 2 = 2 := by decide
  have hne2 : ¬(nodesT (topo gTriangle) = []) := by decide
  simp only [compute_herd_level_metrics, if_neg hne2, Option.getD_some, hns,
    List.map_cons, List.map_nil, hd0, hd1, hd2]
  rw [if_neg (by simp : ¬(([1, 0, 2] : List ℕ) = []))]
  simp only [Option.getD_some]
  norm_num

/-- C4 counterexample: removing an absent member from a concrete graph
does not raise a MemberNotFoundError exception — the call returns
normally with an error message reporting the total node count, and the
baseline is unchanged. -/
theorem C4_counterexample :
    (remove_cow_from_network 99 (some gTriangle)).1 =
        RemoveResult.errNotFound 99 3 ∧
      (remove_cow_from_network 99 (some gTriangle)).1 ≠
        RemoveResult.raised ExcName.MemberNotFoundError ∧
      (remove_cow_from_network 99 (some gTriangle)).2 = some gTriangle := by
  refine ⟨rfl, ?_, rfl⟩
  intro hcontra
  have h99 : ¬((99 : ℕ) ∈ nodesT (topo gTriangle)) := by decide
  simp [remove_cow_from_network, h99] at hcontra

/-- C4 (amended): for every baseline graph and target id absent from it,
the removal tool returns (rather than raises) an error outcome whose
message reports the total member count, and the baseline graph is left
unchanged. -/
theorem C4_missing_member_returns_error (g : Graph) (cow : ℕ)
    (h : cow ∉ nodesT (topo g)) :
    (remove_cow_from_network cow (some g)).1 =
        RemoveResult.errNotFound cow (nodesT (topo g)).length ∧
      (remove_cow_from_network cow (some g)).2 = some g := by
  simp [remove_cow_from_network, h]

/-- C4 witness: the amended statement at a concrete graph and an absent
member id. -/
theorem C4_witness :
    (remove_cow_from_network 99 (some gTriangle)).1 =
        RemoveResult.errNotFound 99 (nodesT (topo gTriangle)).length ∧
      (remove_cow_from_network 99 (some gTriangle)).2 = some gTriangle :=
  C4_missing_member_returns_error gTriangle 99 (by decide)

lemma zBtw_mPath_one : zBtw mPath 1 = 0 := by
  have hmed : medianQ [0, 0, 0] = 0 :=
    percentileQ_const _ 0 50 (by simp) (by simp) (by norm_num) (by norm_num)
  simp [zBtw, mPath, robust_z_score, hmed, List.lookup]

lemma lookupPC_mPath_one : lookupPC mPath 1 = ⟨0, 1/2, 0, 2⟩ := by
  simp [lookupPC, mPath, List.lookup]

lemma conflictScore_mPath_one : conflictScore mPath 1 = -(1/40 : ℝ) := by
  simp only [conflictScore, zBtw_mPath_one, lookupPC_mPath_one, sigmoid_zero]
  push_cast
  rw [sigmoid_zero]
  norm_num

lemma riskFor_conflict_mPath_one : (riskFor mPath 1).conflict_risk = -(1/40 : ℝ) := by
  simp only [riskFor]
  rw [conflictScore_mPath_one]
  exact min_eq_right (by norm_num)

/-- C7: the robust z-score of a non-empty metric map whose values are
all equal performs no division by zero — the IQR is 0, the standard
deviation is 0, and the fallback chain lands on the constant denominator
1.0 — and every member's z-score is exactly 0. -/
theorem C7_constant_zscores (m : List (ℕ × ℚ)) (c : ℚ) (hm : m ≠ [])
    (hc : ∀ p ∈ m, p.2 = c) :
    effDenom (m.map Prod.snd) = 1 ∧
      effDenom (m.map Prod.snd) / 1.35 ≠ 0 ∧
      ∀ p ∈ robust_z_score m, p.2 = 0 := by
  have hvals : ∀ x ∈ m.map Prod.snd, x = c := by
    intro x hx
    rcases List.mem_map.mp hx with ⟨q, hq, rfl⟩
    exact hc q hq
  have hvne : m.map Prod.snd ≠ [] := by simpa using hm
  have hd := effDenom_const _ c hvne hvals
  exact ⟨hd, by rw [hd]; norm_num, robust_z_score_const m c hm hc⟩

/-- C7 witness: the constant map sending members 0 and 1 to the value 5. -/
theorem C7_witness :
    effDenom ([((0 : ℕ), (5 : ℚ)), (1, 5)].map Prod.snd) = 1 ∧
      effDenom ([((0 : ℕ), (5 : ℚ)), (1, 5)].map Prod.snd) / 1.35 ≠ 0 ∧
      ∀ p ∈ robust_z_score [((0 : ℕ), (5 : ℚ)), (1, 5)], p.2 = 0 :=
  C7_constant_zscores _ 5 (by simp) (by simp)

/-- C1 counterexample: on the concrete path graph with the concrete
metrics bundle `mPath`, the conflict risk of member 1 computed by
`compute_risk_scores` differs from the value the claim prescribes with
the normalized degree centrality (degree divided by member count minus
1): the code yields -1/40 while the claimed formula yields 13/40. -/
theorem C1_counterexample :
    ((1 : ℕ), riskFor mPath 1) ∈ compute_risk_scores gPath mPath ∧
      (riskFor mPath 1).conflict_risk ≠
        min 1 (0.5 * sigmoid (zBtw mPath 1) +
          0.15 * sigmoid (((lookupPC mPath 1).community_disruption : ℝ)) +
          0.35 * (1 - ((lookupPC mPath 1).degree : ℝ) /
            (((nodesT (topo gPath)).length : ℝ) - 1))) := by
  constructor
  · simp only [compute_risk_scores]
    exact List.mem_map_of_mem _ (by decide)
  · rw [riskFor_conflict_mPath_one, zBtw_mPath_one, lookupPC_mPath_one]
    have hlen : (nodesT (topo gPath)).length = 3 := by decide
    rw [hlen]
    simp only [sigmoid_zero]
    push_cast
    rw [sigmoid_zero]
    rw [show (0.5 * (1 / 2 : ℝ) + 0.15 * (1 / 2) + 0.35 * (1 - 2 / ((3 : ℝ) - 1))) =
      13 / 40 from by norm_num]
    rw [min_eq_right (by norm_num : (13 / 40 : ℝ) ≤ 1)]
    norm_num

/-- C1 (amended): `compute_risk_scores` computes
`conflict_risk = min(1, 0.50*sigmoid(z_betweenness) +
0.15*sigmoid(community_disruption) + 0.35*(1 - degree))` where `degree`
is the member's RAW degree: the `degree` metrics entry produced by
`compute_per_cow_sna_metrics` holds `G.degree(cow_id)`, which overwrote
the normalized degree centrality in the metrics dictionary. -/
theorem C1_conflict_uses_raw_degree (gm : Topo → List (List ℕ)) (g : Graph)
    (v : ℕ) (hv : v ∈ nodesT (topo g)) :
    (riskFor (compute_per_cow_sna_metrics gm g) v).conflict_risk =
      min 1 (0.5 * sigmoid (zBtw (compute_per_cow_sna_metrics gm g) v) +
        0.15 * sigmoid ((compute_community_disruption gm g v : ℝ)) +
        0.35 * (1 - (degreeT (topo g) v : ℝ))) := by
  simp only [riskFor, conflictScore, lookupPC_pipeline gm g v hv, perCowFor,
    Rat.cast_natCast]

/-- C1 witness: the amended statement at the concrete path graph,
member 1, with the trivial community-detection stand-in. -/
theorem C1_witness :
    (riskFor (compute_per_cow_sna_metrics gmNone gPath) 1).conflict_risk =
      min 1 (0.5 * sigmoid (zBtw (compute_per_cow_sna_metrics gmNone gPath) 1) +
        0.15 * sigmoid ((compute_community_disruption gmNone gPath 1 : ℝ)) +
        0.35 * (1 - (degreeT (topo gPath) 1 : ℝ))) :=
  C1_conflict_uses_raw_degree gmNone gPath 1 (by decide)

/-- C8: every conflict and isolation risk produced by
`compute_risk_scores` is at most 1 (the upper clamp), and the scores are
not floored below: on the concrete path graph with bundle `mPath`,
member 1 receives the negative conflict risk -1/40. -/
theorem C8_risk_scores_upper_clamped_only :
    (∀ (g : Graph) (m : List (ℕ × PerCow)) (p : ℕ × RiskPair),
        p ∈ compute_risk_scores g m →
          p.2.conflict_risk ≤ 1 ∧ p.2.isolation_risk ≤ 1) ∧
      (riskFor mPath 1).conflict_risk < 0 := by
  constructor
  · intro g m p hp
    simp only [compute_risk_scores, List.mem_map] at hp
    obtain ⟨v, hv, rfl⟩ := hp
    exact ⟨min_le_left _ _, min_le_left _ _⟩
  · rw [riskFor_conflict_mPath_one]
    norm_num

/-- C8 witness: the clamp bound applied to the concrete entry of member
1 in the path-graph risk map. -/
theorem C8_witness :
    ((1 : ℕ), riskFor mPath 1) ∈ compute_risk_scores gPath mPath ∧
      (riskFor mPath 1).conflict_risk ≤ 1 ∧
      (riskFor mPath 1).isolation_risk ≤ 1 := by
  have hmem : ((1 : ℕ), riskFor mPath 1) ∈ compute_risk_scores gPath mPath := by
    simp only [compute_risk_scores]
    exact List.mem_map_of_mem _ (by decide)
  exact ⟨hmem, C8_risk_scores_upper_clamped_only.1 gPath mPath _ hmem⟩
